import Mathlib

/-!
Shallow embedding of the message-deduplication and incremental-scan core of
the WhatsApp group tracker (src/whatsapp_scanner.py, src/config.py,
main.py, test_apps/padel/main.py), with theorems about its behaviour.

The Python `hash` built-in is deterministic within one process but its
concrete value is process-dependent (hash randomisation), so it is modelled
as an arbitrary function `h : String → Int` fixed for the whole development
of a single process.
-/

set_option maxRecDepth 8192

namespace WaTracker

/-- `Message` from src/whatsapp_scanner.py: sender, text, timestamp,
phone_number (default "N/A"). All fields are free-form strings. -/
structure Message where
  sender : String
  text : String
  timestamp : String
  phone_number : String := "N/A"
deriving DecidableEq, Repr

/-- `WhatsAppScanner._get_message_id`:
`hash(f"{message.sender}_{message.text[:50]}_{message.timestamp}")`.
Python slices strings by code points, as `String.take` does. -/
def getMessageId (h : String → Int) (m : Message) : Int :=
  h (m.sender ++ "_" ++ m.text.take 50 ++ "_" ++ m.timestamp)

/-- The concatenated key fed to the hash, for stating key-level facts. -/
def messageKey (m : Message) : String :=
  m.sender ++ "_" ++ m.text.take 50 ++ "_" ++ m.timestamp

theorem getMessageId_eq_hash_key (h : String → Int) (m : Message) :
    getMessageId h m = h (messageKey m) := rfl

end WaTracker

namespace WaTracker

/-- C2: the Identity Function hashes the key
`sender ++ "_" ++ text.take 50 ++ "_" ++ timestamp`, and any two messages
whose sender, text and timestamp fields agree receive the same fingerprint
(determinism within one process, i.e. for one fixed hash `h`). -/
theorem fingerprint_deterministic (h : String → Int) (m1 m2 : Message)
    (hs : m1.sender = m2.sender) (ht : m1.text = m2.text)
    (hts : m1.timestamp = m2.timestamp) :
    getMessageId h m1 = h (m1.sender ++ "_" ++ m1.text.take 50 ++ "_" ++ m1.timestamp) ∧
    getMessageId h m1 = getMessageId h m2 := by
  refine ⟨rfl, ?_⟩
  unfold getMessageId
  rw [hs, ht, hts]

theorem fingerprint_deterministic_witness :
    getMessageId (fun s => (s.length : Int)) ⟨"Dana", "padel at 19:00?", "19:02", "N/A"⟩ =
      (fun s : String => (s.length : Int))
        ("Dana" ++ "_" ++ ("padel at 19:00?").take 50 ++ "_" ++ "19:02") ∧
    getMessageId (fun s => (s.length : Int)) ⟨"Dana", "padel at 19:00?", "19:02", "N/A"⟩ =
      getMessageId (fun s => (s.length : Int)) ⟨"Dana", "padel at 19:00?", "19:02", "0501234567"⟩ :=
  fingerprint_deterministic (fun s => (s.length : Int))
    ⟨"Dana", "padel at 19:00?", "19:02", "N/A"⟩
    ⟨"Dana", "padel at 19:00?", "19:02", "0501234567"⟩ rfl rfl rfl

/-- C3: two messages with equal sender and timestamp whose texts agree on
the first 50 characters receive the same fingerprint, whatever happens at
or after the 51st character. -/
theorem fingerprint_stable_under_truncation (h : String → Int) (m1 m2 : Message)
    (hs : m1.sender = m2.sender) (ht : m1.text.take 50 = m2.text.take 50)
    (hts : m1.timestamp = m2.timestamp) :
    getMessageId h m1 = getMessageId h m2 := by
  unfold getMessageId
  rw [hs, ht, hts]

theorem fingerprint_stable_under_truncation_witness :
    getMessageId (fun s => (s.length : Int))
      ⟨"Omer", "aaaaaaaaaaaaaaaaaaaaaaaaaaaaaaaaaaaaaaaaaaaaaaaaaaXtail one", "20:10", "N/A"⟩ =
    getMessageId (fun s => (s.length : Int))
      ⟨"Omer", "aaaaaaaaaaaaaaaaaaaaaaaaaaaaaaaaaaaaaaaaaaaaaaaaaaY other tail", "20:10", "N/A"⟩ :=
  fingerprint_stable_under_truncation (fun s => (s.length : Int)) _ _ rfl (by decide) rfl

/-- The dedup filter loop of `WhatsAppScanner.scan_group_new_messages`
(src/whatsapp_scanner.py lines 132-140): for each extracted message in
yield order, compute its id; if the id is not in `seen_message_ids`, add it
to the set and append the message to `new_messages`. The Python set is
modelled as a duplicate-free `List Int` with `∈` for membership and cons
for `add`; extraction itself is the external source, so the extracted
messages arrive as the argument list. Returns (new_messages, seen). -/
def scanGroupNewMessages (h : String → Int) (seen : List Int) :
    List Message → List Message × List Int
  | [] => ([], seen)
  | m :: rest =>
    let mid := getMessageId h m
    if mid ∈ seen then
      scanGroupNewMessages h seen rest
    else
      let r := scanGroupNewMessages h (mid :: seen) rest
      (m :: r.1, r.2)

/-- A sequence of incremental scans on one scanner instance: each element of
`extractions` is what the source yields for one call; the seen set is
threaded from call to call. Returns the list of returned new-message lists. -/
def scanOutputs (h : String → Int) (seen : List Int) :
    List (List Message) → List (List Message)
  | [] => []
  | ex :: rest =>
    (scanGroupNewMessages h seen ex).1 ::
      scanOutputs h (scanGroupNewMessages h seen ex).2 rest

/-- Baseline seeding as in `monitor_live_mode` (main.py lines 152-159):
every loaded message's id is added to `seen_message_ids`, no classification.
Python's `set.add` is a no-op on a present element. -/
def seedBaseline (h : String → Int) (seen : List Int) (msgs : List Message) : List Int :=
  msgs.foldl (fun st m =>
    let mid := getMessageId h m
    if mid ∈ st then st else mid :: st) seen

theorem scan_nil (h : String → Int) (seen : List Int) :
    scanGroupNewMessages h seen [] = ([], seen) := rfl

theorem scan_cons_seen (h : String → Int) (seen : List Int) (m : Message)
    (rest : List Message) (hc : getMessageId h m ∈ seen) :
    scanGroupNewMessages h seen (m :: rest) = scanGroupNewMessages h seen rest := by
  simp [scanGroupNewMessages, hc]

theorem scan_cons_new (h : String → Int) (seen : List Int) (m : Message)
    (rest : List Message) (hc : getMessageId h m ∉ seen) :
    scanGroupNewMessages h seen (m :: rest) =
      (m :: (scanGroupNewMessages h (getMessageId h m :: seen) rest).1,
       (scanGroupNewMessages h (getMessageId h m :: seen) rest).2) := by
  simp [scanGroupNewMessages, hc]

theorem scan_seen_subset (h : String → Int) (seen : List Int) (msgs : List Message) :
    ∀ f ∈ seen, f ∈ (scanGroupNewMessages h seen msgs).2 := by
  induction msgs generalizing seen with
  | nil => simp [scan_nil]
  | cons m rest ih =>
    intro f hf
    by_cases hc : getMessageId h m ∈ seen
    · rw [scan_cons_seen h seen m rest hc]
      exact ih seen f hf
    · rw [scan_cons_new h seen m rest hc]
      exact ih _ f (List.mem_cons_of_mem _ hf)

theorem scan_output_id_mem_final (h : String → Int) (seen : List Int) (msgs : List Message) :
    ∀ m ∈ (scanGroupNewMessages h seen msgs).1,
      getMessageId h m ∈ (scanGroupNewMessages h seen msgs).2 := by
  induction msgs generalizing seen with
  | nil => simp [scan_nil]
  | cons m rest ih =>
    intro m' hm'
    by_cases hc : getMessageId h m ∈ seen
    · rw [scan_cons_seen h seen m rest hc] at hm' ⊢
      exact ih seen m' hm'
    · rw [scan_cons_new h seen m rest hc] at hm' ⊢
      rcases List.mem_cons.mp hm' with hEq | hTail
      · subst hEq
        exact scan_seen_subset h _ rest _ (List.mem_cons_self _ _)
      · exact ih _ m' hTail

theorem scan_output_id_not_seen (h : String → Int) (seen : List Int) (msgs : List Message) :
    ∀ m ∈ (scanGroupNewMessages h seen msgs).1, getMessageId h m ∉ seen := by
  induction msgs generalizing seen with
  | nil => simp [scan_nil]
  | cons m rest ih =>
    intro m' hm'
    by_cases hc : getMessageId h m ∈ seen
    · rw [scan_cons_seen h seen m rest hc] at hm'
      exact ih seen m' hm'
    · rw [scan_cons_new h seen m rest hc] at hm'
      rcases List.mem_cons.mp hm' with hEq | hTail
      · subst hEq; exact hc
      · intro hmem
        exact ih _ m' hTail (List.mem_cons_of_mem _ hmem)

theorem scanOutputs_avoid_seen (h : String → Int) (seen : List Int)
    (extractions : List (List Message)) (f : Int) (hf : f ∈ seen) :
    ∀ out ∈ scanOutputs h seen extractions, ∀ m ∈ out, getMessageId h m ≠ f := by
  induction extractions generalizing seen with
  | nil => simp [scanOutputs]
  | cons ex rest ih =>
    intro out hout m hm
    simp only [scanOutputs, List.mem_cons] at hout
    rcases hout with hEq | hTail
    · subst hEq
      intro hcontra
      exact scan_output_id_not_seen h seen ex m hm (hcontra ▸ hf)
    · exact ih _ (scan_seen_subset h seen ex f hf) out hTail m hm

theorem scan_output_ids_nodup (h : String → Int) (seen : List Int) (msgs : List Message) :
    ((scanGroupNewMessages h seen msgs).1.map (getMessageId h)).Nodup := by
  induction msgs generalizing seen with
  | nil => simp [scan_nil]
  | cons m rest ih =>
    by_cases hc : getMessageId h m ∈ seen
    · rw [scan_cons_seen h seen m rest hc]
      exact ih seen
    · rw [scan_cons_new h seen m rest hc]
      simp only [List.map_cons, List.nodup_cons]
      refine ⟨?_, ih _⟩
      intro hmem
      obtain ⟨m', hm', hid⟩ := List.mem_map.mp hmem
      apply scan_output_id_not_seen h _ rest m' hm'
      rw [hid]
      exact List.mem_cons_self _ _

theorem scan_first_occurrence (h : String → Int) (pre : List Message) :
    ∀ (seen : List Int) (post : List Message) (m : Message),
      getMessageId h m ∉ seen →
      (∀ m0 ∈ pre, getMessageId h m0 ≠ getMessageId h m) →
      m ∈ (scanGroupNewMessages h seen (pre ++ m :: post)).1 := by
  induction pre with
  | nil =>
    intro seen post m hnew _
    rw [List.nil_append, scan_cons_new h seen m post hnew]
    exact List.mem_cons_self _ _
  | cons p pre' ih =>
    intro seen post m hnew hfirst
    rw [List.cons_append]
    by_cases hc : getMessageId h p ∈ seen
    · rw [scan_cons_seen h seen p _ hc]
      exact ih seen post m hnew (fun m0 hm0 => hfirst m0 (List.mem_cons_of_mem _ hm0))
    · rw [scan_cons_new h seen p _ hc]
      apply List.mem_cons_of_mem
      refine ih _ post m ?_ (fun m0 hm0 => hfirst m0 (List.mem_cons_of_mem _ hm0))
      intro hmem
      rcases List.mem_cons.mp hmem with hEq | hTail
      · exact hfirst p (List.mem_cons_self _ _) hEq.symm
      · exact hnew hTail

theorem seedBaseline_cons (h : String → Int) (seen : List Int) (m : Message)
    (rest : List Message) :
    seedBaseline h seen (m :: rest) =
      seedBaseline h
        (if getMessageId h m ∈ seen then seen else getMessageId h m :: seen) rest := by
  simp [seedBaseline]

theorem seedBaseline_mono (h : String → Int) (msgs : List Message) :
    ∀ seen : List Int, ∀ f ∈ seen, f ∈ seedBaseline h seen msgs := by
  induction msgs with
  | nil =>
    intro seen f hf
    exact hf
  | cons m rest ih =>
    intro seen f hf
    rw [seedBaseline_cons]
    apply ih
    by_cases hc : getMessageId h m ∈ seen
    · simpa [hc] using hf
    · simp only [hc, if_false]
      exact List.mem_cons_of_mem _ hf

theorem seedBaseline_mem (h : String → Int) (msgs : List Message) :
    ∀ seen : List Int, ∀ m ∈ msgs, getMessageId h m ∈ seedBaseline h seen msgs := by
  induction msgs with
  | nil => simp
  | cons m rest ih =>
    intro seen m' hm'
    rw [seedBaseline_cons]
    rcases List.mem_cons.mp hm' with hEq | hTail
    · subst hEq
      apply seedBaseline_mono
      by_cases hc : getMessageId h m' ∈ seen
      · simp [hc]
      · simp [hc]
    · exact ih _ m' hTail

theorem scan_all_seen_empty (h : String → Int) (msgs : List Message) :
    ∀ seen : List Int, (∀ m ∈ msgs, getMessageId h m ∈ seen) →
      (scanGroupNewMessages h seen msgs).1 = [] := by
  induction msgs with
  | nil =>
    intro seen _
    rw [scan_nil]
  | cons m rest ih =>
    intro seen hall
    rw [scan_cons_seen h seen m rest (hall m (List.mem_cons_self _ _))]
    exact ih seen (fun m' hm' => hall m' (List.mem_cons_of_mem _ hm'))

/-- C10: the separator `_` is not escaped, so distinct (sender, text,
timestamp) triples can produce the same key and hence the same fingerprint
under every hash: sender "a_b" with text "c" collides with sender "a" and
text "b_c" at the same timestamp. The Identity Function is not injective
on the (sender, first-50-characters, timestamp) triple. -/
theorem fingerprint_separator_collision :
    ∀ h : String → Int,
      getMessageId h ⟨"a_b", "c", "10:00", "N/A"⟩ =
        getMessageId h ⟨"a", "b_c", "10:00", "N/A"⟩ ∧
    (Message.sender ⟨"a_b", "c", "10:00", "N/A"⟩, (Message.text ⟨"a_b", "c", "10:00", "N/A"⟩).take 50,
        Message.timestamp ⟨"a_b", "c", "10:00", "N/A"⟩) ≠
      (Message.sender ⟨"a", "b_c", "10:00", "N/A"⟩, (Message.text ⟨"a", "b_c", "10:00", "N/A"⟩).take 50,
        Message.timestamp ⟨"a", "b_c", "10:00", "N/A"⟩) := by
  refine fun h => ⟨?_, by decide⟩
  show h (messageKey ⟨"a_b", "c", "10:00", "N/A"⟩) = h (messageKey ⟨"a", "b_c", "10:00", "N/A"⟩)
  have hk : messageKey ⟨"a_b", "c", "10:00", "N/A"⟩ = messageKey ⟨"a", "b_c", "10:00", "N/A"⟩ := by
    decide
  rw [hk]

/-- Hash instance used only to build concrete witnesses; every claim
theorem holds for an arbitrary per-process hash. -/
def demoHash (s : String) : Int := s.length

/-- A scenario JSON file as read by `Config._load_scenarios`: the file stem
`name`, the raw `prompt`, whether a truthy `response_schema` is present,
and the `groups` list. The schema contents only shape the dynamically
created Pydantic model and play no role in dispatch. -/
structure ScenarioFile where
  name : String
  prompt : String
  hasSchema : Bool
  groups : List String
deriving DecidableEq, Repr

/-- `ScenarioDefinition` (src/config.py): the dispatch-relevant fields.
`response_model`, `confidence_field` and `reasoning_field` are irrelevant
to group lookup and omitted. -/
structure ScenarioDefinition where
  name : String
  prompt : String
  groups : List String
deriving DecidableEq, Repr

/-- Python `str.strip()`: remove leading and trailing whitespace. Written
as structural recursion over the character list so that it evaluates in
the kernel (`String.trim` itself is defined by well-founded recursion and
does not reduce). -/
def pyStrip (s : String) : String :=
  ⟨((s.data.dropWhile Char.isWhitespace).reverse.dropWhile Char.isWhitespace).reverse⟩

/-- One iteration of `_load_scenarios`: strip the prompt and skip the file
when the stripped prompt is empty, the schema is missing, or `groups` is
empty. -/
def loadScenarioFile (f : ScenarioFile) : Option ScenarioDefinition :=
  if pyStrip f.prompt = "" ∨ f.hasSchema = false ∨ f.groups = [] then none
  else some ⟨f.name, pyStrip f.prompt, f.groups⟩

/-- The values of `scenario_definitions`, in load order (file stems within
one directory are distinct, so no name ever overwrites another). -/
def loadedScenarios (files : List ScenarioFile) : List ScenarioDefinition :=
  files.filterMap loadScenarioFile

/-- `for group in groups: self.group_to_scenario[group] = scenario` — the
Python dict is modelled as a function `String → Option ScenarioDefinition`
updated assignment by assignment, so a later assignment to the same key
overwrites an earlier one exactly as dict assignment does. -/
def assignGroups (sd : ScenarioDefinition) (gs : List String)
    (acc : String → Option ScenarioDefinition) : String → Option ScenarioDefinition :=
  gs.foldl (fun a g => fun k => if k = g then some sd else a k) acc

/-- Processing one scenario file inside `_load_scenarios`. -/
def loadStep (acc : String → Option ScenarioDefinition) (f : ScenarioFile) :
    String → Option ScenarioDefinition :=
  match loadScenarioFile f with
  | none => acc
  | some sd => assignGroups sd sd.groups acc

/-- The `group_to_scenario` mapping after `_load_scenarios` has processed
`files` in order, starting from the empty dict. -/
def buildGroupMap (files : List ScenarioFile) : String → Option ScenarioDefinition :=
  files.foldl loadStep (fun _ => none)

/-- `Config.get_scenario_for_group`: `self.group_to_scenario.get(group_name)`. -/
def getScenarioForGroup (files : List ScenarioFile) (g : String) :
    Option ScenarioDefinition :=
  buildGroupMap files g

theorem assignGroups_cons (sd : ScenarioDefinition) (g : String) (rest : List String)
    (acc : String → Option ScenarioDefinition) :
    assignGroups sd (g :: rest) acc =
      assignGroups sd rest (fun k => if k = g then some sd else acc k) := by
  simp [assignGroups]

theorem assignGroups_not_mem (sd : ScenarioDefinition) (gs : List String) :
    ∀ (acc : String → Option ScenarioDefinition) (k : String), k ∉ gs →
      assignGroups sd gs acc k = acc k := by
  induction gs with
  | nil =>
    intro acc k _
    rfl
  | cons g rest ih =>
    intro acc k hk
    rw [assignGroups_cons]
    rw [ih _ k (fun hmem => hk (List.mem_cons_of_mem _ hmem))]
    have hne : ¬ k = g := by
      intro hEq
      exact hk (by rw [hEq]; exact List.mem_cons_self g rest)
    simp only [if_neg hne]

theorem assignGroups_mem (sd : ScenarioDefinition) (gs : List String) :
    ∀ (acc : String → Option ScenarioDefinition) (k : String), k ∈ gs →
      assignGroups sd gs acc k = some sd := by
  induction gs with
  | nil => simp
  | cons g rest ih =>
    intro acc k hk
    rw [assignGroups_cons]
    by_cases hr : k ∈ rest
    · exact ih _ k hr
    · rcases List.mem_cons.mp hk with hEq | hmem
      · rw [assignGroups_not_mem sd rest _ k hr]
        simp [hEq]
      · exact absurd hmem hr

theorem loadStep_none (acc : String → Option ScenarioDefinition) (f : ScenarioFile)
    (hload : loadScenarioFile f = none) : loadStep acc f = acc := by
  simp [loadStep, hload]

theorem loadStep_some (acc : String → Option ScenarioDefinition) (f : ScenarioFile)
    (sd : ScenarioDefinition) (hload : loadScenarioFile f = some sd) :
    loadStep acc f = assignGroups sd sd.groups acc := by
  simp [loadStep, hload]

theorem groupMap_unmapped (files : List ScenarioFile) :
    ∀ (acc : String → Option ScenarioDefinition) (k : String),
      (∀ sd ∈ loadedScenarios files, k ∉ sd.groups) →
      files.foldl loadStep acc k = acc k := by
  induction files with
  | nil =>
    intro acc k _
    rfl
  | cons f rest ih =>
    intro acc k hk
    rw [List.foldl_cons]
    rcases hload : loadScenarioFile f with _ | sd
    · rw [loadStep_none acc f hload]
      apply ih
      intro sd' hsd'
      apply hk
      simp only [loadedScenarios, List.filterMap_cons, hload]
      exact hsd'
    · rw [loadStep_some acc f sd hload]
      have hksd : k ∉ sd.groups := by
        apply hk
        simp only [loadedScenarios, List.filterMap_cons, hload]
        exact List.mem_cons_self _ _
      have hrest : ∀ sd' ∈ loadedScenarios rest, k ∉ sd'.groups := by
        intro sd' hsd'
        apply hk
        simp only [loadedScenarios, List.filterMap_cons, hload]
        exact List.mem_cons_of_mem _ hsd'
      rw [ih _ k hrest]
      exact assignGroups_not_mem sd sd.groups acc k hksd

theorem groupMap_sound (files : List ScenarioFile) :
    ∀ (acc : String → Option ScenarioDefinition) (k : String) (v : ScenarioDefinition),
      files.foldl loadStep acc k = some v →
      (v ∈ loadedScenarios files ∧ k ∈ v.groups) ∨ acc k = some v := by
  induction files with
  | nil =>
    intro acc k v hv
    exact Or.inr hv
  | cons f rest ih =>
    intro acc k v hv
    rw [List.foldl_cons] at hv
    rcases ih _ k v hv with ⟨hmem, hg⟩ | hacc
    · refine Or.inl ⟨?_, hg⟩
      simp only [loadedScenarios, List.filterMap_cons]
      rcases loadScenarioFile f with _ | sd
      · exact hmem
      · exact List.mem_cons_of_mem _ hmem
    · rcases hload : loadScenarioFile f with _ | sd
      · rw [loadStep_none acc f hload] at hacc
        exact Or.inr hacc
      · rw [loadStep_some acc f sd hload] at hacc
        by_cases hk : k ∈ sd.groups
        · rw [assignGroups_mem sd sd.groups acc k hk] at hacc
          obtain rfl : sd = v := Option.some_inj.mp hacc
          refine Or.inl ⟨?_, hk⟩
          simp only [loadedScenarios, List.filterMap_cons, hload]
          exact List.mem_cons_self _ _
        · rw [assignGroups_not_mem sd sd.groups acc k hk] at hacc
          exact Or.inr hacc

theorem groupMap_preserves_some (files : List ScenarioFile) :
    ∀ (acc : String → Option ScenarioDefinition) (k : String),
      (acc k).isSome = true → (files.foldl loadStep acc k).isSome = true := by
  induction files with
  | nil =>
    intro acc k hk
    exact hk
  | cons f rest ih =>
    intro acc k hk
    rw [List.foldl_cons]
    apply ih
    rcases hload : loadScenarioFile f with _ | sd
    · rw [loadStep_none acc f hload]
      exact hk
    · rw [loadStep_some acc f sd hload]
      by_cases hg : k ∈ sd.groups
      · rw [assignGroups_mem sd sd.groups acc k hg]
        rfl
      · rw [assignGroups_not_mem sd sd.groups acc k hg]
        exact hk

theorem groupMap_complete (files : List ScenarioFile) :
    ∀ (acc : String → Option ScenarioDefinition) (k : String) (sd : ScenarioDefinition),
      sd ∈ loadedScenarios files → k ∈ sd.groups →
      (files.foldl loadStep acc k).isSome = true := by
  induction files with
  | nil => simp [loadedScenarios]
  | cons f rest ih =>
    intro acc k sd hsd hk
    rw [List.foldl_cons]
    rcases hload : loadScenarioFile f with _ | sd'
    · simp only [loadedScenarios, List.filterMap_cons, hload] at hsd
      exact ih _ k sd hsd hk
    · simp only [loadedScenarios, List.filterMap_cons, hload, List.mem_cons] at hsd
      rcases hsd with hEq | hrest
      · subst hEq
        apply groupMap_preserves_some
        rw [loadStep_some acc f sd hload, assignGroups_mem sd sd.groups acc k hk]
        rfl
      · exact ih _ k sd hrest hk

theorem getScenarioForGroup_eq_foldl (files : List ScenarioFile) (g : String) :
    getScenarioForGroup files g = files.foldl loadStep (fun _ => none) g := rfl

theorem dispatch_found (files : List ScenarioFile) (g : String) (sd : ScenarioDefinition)
    (hsd : sd ∈ loadedScenarios files) (hg : g ∈ sd.groups) :
    ∃ sd', getScenarioForGroup files g = some sd' ∧
      sd' ∈ loadedScenarios files ∧ g ∈ sd'.groups := by
  have hsome := groupMap_complete files (fun _ => none) g sd hsd hg
  obtain ⟨v, hv⟩ := Option.isSome_iff_exists.mp hsome
  refine ⟨v, hv, ?_⟩
  rcases groupMap_sound files (fun _ => none) g v hv with ⟨hmem, hgv⟩ | hcontra
  · exact ⟨hmem, hgv⟩
  · exact absurd hcontra (by simp)

/-- Two scenario files whose `groups` lists share the chat "Group G". -/
def fileAlpha : ScenarioFile := ⟨"alpha", "prompt one", true, ["Group G"]⟩

def fileBeta : ScenarioFile := ⟨"beta", "prompt two", true, ["Group G", "Beta Only"]⟩

def scenAlpha : ScenarioDefinition := ⟨"alpha", "prompt one", ["Group G"]⟩

def scenBeta : ScenarioDefinition := ⟨"beta", "prompt two", ["Group G", "Beta Only"]⟩

/-- C5 counterexample: "Group G" appears in the groups list of the loaded
scenario `scenAlpha`, yet `get_scenario_for_group` returns `scenBeta`: the
dict assignment `group_to_scenario[group] = scenario` lets the later-loaded
scenario overwrite the earlier one, so the lookup does not return "that
scenario" for every scenario containing the chat id. -/
theorem dispatch_overlap_counterexample :
    scenAlpha ∈ loadedScenarios [fileAlpha, fileBeta] ∧
    "Group G" ∈ scenAlpha.groups ∧
    getScenarioForGroup [fileAlpha, fileBeta] "Group G" = some scenBeta ∧
    getScenarioForGroup [fileAlpha, fileBeta] "Group G" ≠ some scenAlpha := by
  refine ⟨by decide, by decide, by decide, by decide⟩

/-- C5 (amended): for a chat id in the groups list of at least one loaded
scenario, the lookup returns some loaded scenario whose groups contain it
(when exactly one loaded scenario contains the id, that very scenario);
for a chat id absent from every loaded scenario's groups list it returns
none. When one id appears in two scenarios' groups lists, only one of the
two (the later-loaded) is returned. -/
theorem dispatch_lookup_amended (files : List ScenarioFile) (g : String) :
    ((∃ sd ∈ loadedScenarios files, g ∈ sd.groups) →
      ∃ sd', getScenarioForGroup files g = some sd' ∧
        sd' ∈ loadedScenarios files ∧ g ∈ sd'.groups) ∧
    ((∀ sd ∈ loadedScenarios files, g ∉ sd.groups) →
      getScenarioForGroup files g = none) ∧
    (∀ sd ∈ loadedScenarios files, g ∈ sd.groups →
      (∀ sd' ∈ loadedScenarios files, g ∈ sd'.groups → sd' = sd) →
      getScenarioForGroup files g = some sd) := by
  refine ⟨?_, ?_, ?_⟩
  · rintro ⟨sd, hsd, hg⟩
    exact dispatch_found files g sd hsd hg
  · intro hnone
    rw [getScenarioForGroup_eq_foldl]
    exact groupMap_unmapped files (fun _ => none) g hnone
  · intro sd hsd hg huniq
    obtain ⟨v, hv, hvmem, hvg⟩ := dispatch_found files g sd hsd hg
    rw [hv, huniq v hvmem hvg]

theorem dispatch_lookup_amended_witness :
    getScenarioForGroup [fileAlpha] "Group G" = some scenAlpha ∧
    getScenarioForGroup [fileAlpha] "Other Chat" = none :=
  ⟨(dispatch_lookup_amended [fileAlpha] "Group G").2.2 scenAlpha (by decide) (by decide)
      (by decide),
   (dispatch_lookup_amended [fileAlpha] "Other Chat").2.1 (by decide)⟩

/-- C1: over any sequence of incremental scans on one scanner instance
(seen set threaded from call to call, starting from any state), the
returned lists are pairwise fingerprint-disjoint: once a message with some
fingerprint is returned by one scan, no later scan's returned list contains
a message with that fingerprint, even if the source re-yields a message
with the same sender, text prefix and timestamp. -/
theorem no_repeat_across_incremental_scans (h : String → Int) (seen : List Int)
    (extractions : List (List Message)) :
    List.Pairwise (fun out1 out2 => ∀ m1 ∈ out1, ∀ m2 ∈ out2,
      getMessageId h m2 ≠ getMessageId h m1) (scanOutputs h seen extractions) := by
  induction extractions generalizing seen with
  | nil => simp [scanOutputs]
  | cons ex rest ih =>
    rw [scanOutputs]
    refine List.Pairwise.cons ?_ (ih _)
    intro out2 hout2 m1 hm1 m2 hm2
    exact scanOutputs_avoid_seen h _ rest (getMessageId h m1)
      (scan_output_id_mem_final h seen ex m1 hm1) out2 hout2 m2 hm2

/-- C9: within one incremental scan, the returned list never contains two
messages with equal fingerprints, and when the source yields several
messages sharing a fingerprint that is not yet seen, the first of them in
yield order is the one returned. -/
theorem intra_scan_dedup (h : String → Int) (seen : List Int)
    (pre post : List Message) (m : Message)
    (hnew : getMessageId h m ∉ seen)
    (hfirst : ∀ m0 ∈ pre, getMessageId h m0 ≠ getMessageId h m) :
    (∀ msgs : List Message,
      ((scanGroupNewMessages h seen msgs).1.map (getMessageId h)).Nodup) ∧
    m ∈ (scanGroupNewMessages h seen (pre ++ m :: post)).1 :=
  ⟨fun msgs => scan_output_ids_nodup h seen msgs,
   scan_first_occurrence h pre seen post m hnew hfirst⟩

theorem intra_scan_dedup_witness :
    (∀ msgs : List Message,
      ((scanGroupNewMessages demoHash [] msgs).1.map (getMessageId demoHash)).Nodup) ∧
    Message.mk "Bar" "yy" "2" "N/A" ∈
      (scanGroupNewMessages demoHash []
        ([Message.mk "A" "x" "1" "N/A"] ++ Message.mk "Bar" "yy" "2" "N/A" ::
          [Message.mk "Barak" "yy" "2" "N/A"])).1 :=
  intra_scan_dedup demoHash [] [Message.mk "A" "x" "1" "N/A"]
    [Message.mk "Barak" "yy" "2" "N/A"] (Message.mk "Bar" "yy" "2" "N/A")
    (by decide) (by decide)

/-- C4: after baseline seeding marks each of the N loaded messages' ids as
seen (without classifying), an immediately following incremental scan whose
source yields exactly those N messages returns an empty new-message list. -/
theorem baseline_seed_then_scan_empty (h : String → Int) (seen : List Int)
    (msgs : List Message) :
    (scanGroupNewMessages h (seedBaseline h seen msgs) msgs).1 = [] :=
  scan_all_seen_empty h msgs (seedBaseline h seen msgs)
    (fun m hm => seedBaseline_mem h msgs seen m hm)

/-- The fields of `PadelGameAnalysis` that `analyze_messages` inspects:
`is_game_invite` and `confidence` (the other fields ride along unread). -/
structure MsgAnalysis where
  is_game_invite : Bool
  confidence : String
deriving DecidableEq, Repr

/-- Outcome of one classifier call `agent.analyze_message(msg.text)`:
the call can raise (caught by the `except` around it), return `None`
(the agent's own internal failure path), or return an analysis. -/
inductive ClassifyOutcome where
  | throws
  | value (a : Option MsgAnalysis)
deriving DecidableEq, Repr

/-- `Match` from src/models.py. -/
structure Match where
  timestamp : String
  group_name : String
  sender : String
  phone_number : String
  message : String
  confidence : String
  analysis : MsgAnalysis
deriving DecidableEq, Repr

/-- The `Match(...)` construction in `analyze_messages` (main.py lines
61-69): fields copied from the message, confidence and analysis from the
classifier result. -/
def mkMatch (group_name : String) (m : Message) (a : MsgAnalysis) : Match :=
  ⟨m.timestamp, group_name, m.sender, m.phone_number, m.text, a.confidence, a⟩

/-- `analyze_messages` (main.py lines 53-83): classify each message's text
in sequence; an exception from the classifier is caught and the loop moves
on; a `None` analysis or `is_game_invite = false` adds nothing; otherwise
`tracker.add_match` appends the built `Match` to `self.matches` (modelled
as list append). The tracker's match list is the state threaded through;
console and GUI output are external. -/
def analyzeMessages (classify : String → ClassifyOutcome) (group_name : String) :
    List Message → List Match → List Match
  | [], tracker => tracker
  | m :: rest, tracker =>
    match classify m.text with
    | ClassifyOutcome.throws => analyzeMessages classify group_name rest tracker
    | ClassifyOutcome.value none => analyzeMessages classify group_name rest tracker
    | ClassifyOutcome.value (some a) =>
      if a.is_game_invite then
        analyzeMessages classify group_name rest (tracker ++ [mkMatch group_name m a])
      else
        analyzeMessages classify group_name rest tracker

/-- The contribution of one message to the tracker: a `Match` exactly when
the classifier returns an analysis with `is_game_invite = true`. -/
def surfaced (classify : String → ClassifyOutcome) (group_name : String)
    (m : Message) : Option Match :=
  match classify m.text with
  | ClassifyOutcome.value (some a) =>
    if a.is_game_invite then some (mkMatch group_name m a) else none
  | _ => none

theorem analyzeMessages_eq_filterMap (classify : String → ClassifyOutcome)
    (group_name : String) (msgs : List Message) :
    ∀ tracker : List Match,
      analyzeMessages classify group_name msgs tracker =
        tracker ++ msgs.filterMap (surfaced classify group_name) := by
  induction msgs with
  | nil =>
    intro tracker
    simp [analyzeMessages]
  | cons m rest ih =>
    intro tracker
    rcases hc : classify m.text with _ | (_ | a)
    · have hs : surfaced classify group_name m = none := by simp [surfaced, hc]
      rw [List.filterMap_cons_none hs]
      simp only [analyzeMessages, hc]
      exact ih tracker
    · have hs : surfaced classify group_name m = none := by simp [surfaced, hc]
      rw [List.filterMap_cons_none hs]
      simp only [analyzeMessages, hc]
      exact ih tracker
    · by_cases hg : a.is_game_invite = true
      · have hs : surfaced classify group_name m = some (mkMatch group_name m a) := by
          simp [surfaced, hc, hg]
        rw [List.filterMap_cons_some hs]
        simp only [analyzeMessages, hc, hg, if_true]
        rw [ih (tracker ++ [mkMatch group_name m a])]
        simp
      · have hs : surfaced classify group_name m = none := by
          simp [surfaced, hc, hg]
        rw [List.filterMap_cons_none hs]
        simp only [analyzeMessages, hc, hg, if_false]
        exact ih tracker

/-- C6: a classifier exception for one message is caught and removes only
that message's contribution — the batch result is the same as if the
throwing message were absent, so the remaining messages are still
classified; in the three-message scenario where only the second
classification throws and the first and third classify as invites, the
final output holds the first and third results, in that order. -/
theorem classifier_failure_isolated :
    (∀ (classify : String → ClassifyOutcome) (g : String) (pre post : List Message)
        (m : Message) (tracker : List Match),
      classify m.text = ClassifyOutcome.throws →
      analyzeMessages classify g (pre ++ m :: post) tracker =
        analyzeMessages classify g (pre ++ post) tracker) ∧
    (∀ (classify : String → ClassifyOutcome) (g : String) (m1 m2 m3 : Message)
        (a1 a3 : MsgAnalysis),
      classify m1.text = ClassifyOutcome.value (some a1) → a1.is_game_invite = true →
      classify m2.text = ClassifyOutcome.throws →
      classify m3.text = ClassifyOutcome.value (some a3) → a3.is_game_invite = true →
      analyzeMessages classify g [m1, m2, m3] [] = [mkMatch g m1 a1, mkMatch g m3 a3]) := by
  constructor
  · intro classify g pre post m tracker hm
    rw [analyzeMessages_eq_filterMap, analyzeMessages_eq_filterMap]
    have hs : surfaced classify g m = none := by simp [surfaced, hm]
    rw [List.filterMap_append, List.filterMap_append, List.filterMap_cons_none hs]
  · intro classify g m1 m2 m3 a1 a3 h1 hg1 h2 h3 hg3
    rw [analyzeMessages_eq_filterMap]
    simp [List.filterMap_cons, surfaced, h1, h2, h3, hg1, hg3]

/-- Concrete classifier for the C6 witness: throws exactly on "bad". -/
def demoClassifier (t : String) : ClassifyOutcome :=
  if t = "bad" then ClassifyOutcome.throws
  else ClassifyOutcome.value (some ⟨true, "HIGH"⟩)

theorem classifier_failure_isolated_witness :
    analyzeMessages demoClassifier "Padel TLV"
        [⟨"S1", "ok1", "10:00", "N/A"⟩, ⟨"S2", "bad", "10:01", "N/A"⟩,
         ⟨"S3", "ok3", "10:02", "N/A"⟩] [] =
      [mkMatch "Padel TLV" ⟨"S1", "ok1", "10:00", "N/A"⟩ ⟨true, "HIGH"⟩,
       mkMatch "Padel TLV" ⟨"S3", "ok3", "10:02", "N/A"⟩ ⟨true, "HIGH"⟩] :=
  classifier_failure_isolated.2 demoClassifier "Padel TLV"
    ⟨"S1", "ok1", "10:00", "N/A"⟩ ⟨"S2", "bad", "10:01", "N/A"⟩ ⟨"S3", "ok3", "10:02", "N/A"⟩
    ⟨true, "HIGH"⟩ ⟨true, "HIGH"⟩ (by decide) rfl (by decide) (by decide) rfl

/-- C7: the surfaced output is the input tracker extended by exactly the
messages whose classification has `is_game_invite = true`, in input order;
in particular, classifier verdicts [true, false, true] over three messages
surface a list of length 2 preserving relative order. -/
theorem positive_filter_preserves_order :
    (∀ (classify : String → ClassifyOutcome) (g : String) (msgs : List Message)
        (tracker : List Match),
      analyzeMessages classify g msgs tracker =
        tracker ++ msgs.filterMap (surfaced classify g)) ∧
    (∀ (classify : String → ClassifyOutcome) (g : String) (m1 m2 m3 : Message)
        (a1 a2 a3 : MsgAnalysis),
      classify m1.text = ClassifyOutcome.value (some a1) → a1.is_game_invite = true →
      classify m2.text = ClassifyOutcome.value (some a2) → a2.is_game_invite = false →
      classify m3.text = ClassifyOutcome.value (some a3) → a3.is_game_invite = true →
      analyzeMessages classify g [m1, m2, m3] [] = [mkMatch g m1 a1, mkMatch g m3 a3] ∧
      (analyzeMessages classify g [m1, m2, m3] []).length = 2) := by
  constructor
  · intro classify g msgs tracker
    exact analyzeMessages_eq_filterMap classify g msgs tracker
  · intro classify g m1 m2 m3 a1 a2 a3 h1 hg1 h2 hg2 h3 hg3
    have hout : analyzeMessages classify g [m1, m2, m3] [] =
        [mkMatch g m1 a1, mkMatch g m3 a3] := by
      rw [analyzeMessages_eq_filterMap]
      simp [List.filterMap_cons, surfaced, h1, h2, h3, hg1, hg2, hg3]
    exact ⟨hout, by rw [hout]; rfl⟩

/-- Concrete classifier for the C7 witness: verdict false exactly on "no". -/
def demoClassifierTF (t : String) : ClassifyOutcome :=
  if t = "no" then ClassifyOutcome.value (some ⟨false, "LOW"⟩)
  else ClassifyOutcome.value (some ⟨true, "MEDIUM"⟩)

theorem positive_filter_preserves_order_witness :
    analyzeMessages demoClassifierTF "Padel North"
        [⟨"P1", "yes1", "08:00", "N/A"⟩, ⟨"P2", "no", "08:01", "N/A"⟩,
         ⟨"P3", "yes3", "08:02", "N/A"⟩] [] =
      [mkMatch "Padel North" ⟨"P1", "yes1", "08:00", "N/A"⟩ ⟨true, "MEDIUM"⟩,
       mkMatch "Padel North" ⟨"P3", "yes3", "08:02", "N/A"⟩ ⟨true, "MEDIUM"⟩] ∧
    (analyzeMessages demoClassifierTF "Padel North"
        [⟨"P1", "yes1", "08:00", "N/A"⟩, ⟨"P2", "no", "08:01", "N/A"⟩,
         ⟨"P3", "yes3", "08:02", "N/A"⟩] []).length = 2 :=
  positive_filter_preserves_order.2 demoClassifierTF "Padel North"
    ⟨"P1", "yes1", "08:00", "N/A"⟩ ⟨"P2", "no", "08:01", "N/A"⟩ ⟨"P3", "yes3", "08:02", "N/A"⟩
    ⟨true, "MEDIUM"⟩ ⟨false, "LOW"⟩ ⟨true, "MEDIUM"⟩
    (by decide) rfl (by decide) rfl (by decide) rfl

/-- Observable activity of the group loop of `scan_history_mode`
(test_apps/padel/main.py lines 103-108). `warned g` stands for a printed
warning naming a skipped chat; `scanned g` stands for scanning and
analyzing chat `g` under its looked-up scenario. -/
inductive ScanEvent where
  | warned (g : String)
  | scanned (g : String)
deriving DecidableEq, Repr

/-- The loop body per group: `scenario = config.get_scenario_for_group(group)`;
`if not scenario or scenario.name != 'padel': continue` — the skip branch
is a bare `continue` that prints nothing and substitutes no fallback
scenario; otherwise the group is scanned and analyzed. -/
def scanHistoryGroups (lookupScen : String → Option ScenarioDefinition) :
    List String → List ScanEvent
  | [] => []
  | g :: rest =>
    match lookupScen g with
    | none => scanHistoryGroups lookupScen rest
    | some sd =>
      if sd.name = "padel" then
        ScanEvent.scanned g :: scanHistoryGroups lookupScen rest
      else
        scanHistoryGroups lookupScen rest

/-- The padel scenario and a group-to-scenario lookup for concrete runs. -/
def padelScen : ScenarioDefinition := ⟨"padel", "find padel invites", ["Padel Group"]⟩

def demoLookup (g : String) : Option ScenarioDefinition :=
  if g = "Padel Group" then some padelScen else none

/-- C8 counterexample: running the history loop over an unmapped chat
"Mystery Group" followed by the mapped "Padel Group" produces no warning
event at all — the unmapped chat is skipped silently, not "with a visible
warning" as the claim states. -/
theorem unmapped_no_warning_counterexample :
    demoLookup "Mystery Group" = none ∧
    scanHistoryGroups demoLookup ["Mystery Group", "Padel Group"] =
      [ScanEvent.scanned "Padel Group"] ∧
    ScanEvent.warned "Mystery Group" ∉
      scanHistoryGroups demoLookup ["Mystery Group", "Padel Group"] := by
  refine ⟨by decide, by decide, by decide⟩

/-- C8 (amended): a chat identifier with no mapped scenario is skipped
silently — it is never scanned or classified (in particular never under a
substituted default scenario; the loop consults only the lookup result),
but no warning is printed — and processing of the remaining chats
continues exactly as if the unmapped chat were absent. -/
theorem unmapped_group_skipped (lookupScen : String → Option ScenarioDefinition)
    (g : String) (hg : lookupScen g = none) :
    (∀ groups : List String,
      ScanEvent.scanned g ∉ scanHistoryGroups lookupScen groups) ∧
    (∀ pre post : List String,
      scanHistoryGroups lookupScen (pre ++ g :: post) =
        scanHistoryGroups lookupScen (pre ++ post)) := by
  constructor
  · intro groups
    induction groups with
    | nil => simp [scanHistoryGroups]
    | cons p rest ih =>
      rcases hp : lookupScen p with _ | sd
      · simpa [scanHistoryGroups, hp] using ih
      · by_cases hn : sd.name = "padel"
        · simp only [scanHistoryGroups, hp, hn, if_true, List.mem_cons]
          rintro (hEq | hmem)
          · rw [ScanEvent.scanned.injEq] at hEq
            rw [hEq] at hg
            rw [hg] at hp
            exact Option.noConfusion hp
          · exact ih hmem
        · simpa [scanHistoryGroups, hp, hn] using ih
  · intro pre post
    induction pre with
    | nil =>
      simp [scanHistoryGroups, hg]
    | cons p pre' ih =>
      rcases hp : lookupScen p with _ | sd
      · simp [scanHistoryGroups, hp, ih]
      · by_cases hn : sd.name = "padel"
        · simp [scanHistoryGroups, hp, hn, ih]
        · simp [scanHistoryGroups, hp, hn, ih]

theorem unmapped_group_skipped_witness :
    (∀ groups : List String,
      ScanEvent.scanned "Mystery Group" ∉ scanHistoryGroups demoLookup groups) ∧
    scanHistoryGroups demoLookup (["Padel Group"] ++ "Mystery Group" :: ["Padel Group"]) =
      scanHistoryGroups demoLookup (["Padel Group"] ++ ["Padel Group"]) :=
  ⟨(unmapped_group_skipped demoLookup "Mystery Group" (by decide)).1,
   (unmapped_group_skipped demoLookup "Mystery Group" (by decide)).2
     ["Padel Group"] ["Padel Group"]⟩

end WaTracker
